import Mathlib

/-!
Verification of the content-publishing workflow in
`src/chapters/chapter-17/example03.rs` (the state-pattern `Post` example).

The Rust source defines a trait `State` with three implementing structs
`Draft`, `PendingReview`, `Published`; since the set of implementors is
closed, the trait objects are embedded as an inductive type `StateV` and
the two trait methods as total functions on it, each clause transcribed
from the corresponding `impl State for ...` block.

`Post` holds `state: Option<Box<dyn State>>` and `content: String`;
it is embedded as a structure with an `Option StateV` field and a
`String` field.  The method `Post::content` in the source is
`&self.content`, i.e. it returns the buffer unconditionally, so the
structure projection `Post.content` is exactly that method.
`Post::approve` and `Post::request_review` use `self.state.take()`,
which leaves `None` in the slot and hands the old value to the arm;
the embedding mirrors this two-step shape explicitly.
-/

inductive StateV where
  | Draft : StateV
  | PendingReview : StateV
  | Published : StateV
deriving DecidableEq, Repr

/-- `impl State for Draft` / `PendingReview` / `Published`, method
`request_review` (lines 44-46, 56-58, 68-70 of the source): every
variant returns `self` unchanged. -/
def StateV.request_review : StateV → StateV
  | .Draft => .Draft
  | .PendingReview => .PendingReview
  | .Published => .Published

/-- `impl State for Draft` / `PendingReview` / `Published`, method
`approve` (lines 48-50, 60-62, 72-74): only `PendingReview` moves,
to `Published`; the others return `self`. -/
def StateV.approve : StateV → StateV
  | .Draft => .Draft
  | .PendingReview => .Published
  | .Published => .Published

/-- `pub struct Post { state: Option<Box<dyn State>>, content: String }`.
The projection `Post.content` is also the embedding of the method
`pub fn content(&self) -> &str { &self.content }`. -/
structure Post where
  state : Option StateV
  content : String
deriving DecidableEq, Repr

/-- `Post::new`: `Some(Box::new(Draft {}))` and an empty string. -/
def Post.new : Post :=
  { state := some StateV.Draft, content := "" }

/-- `Post::add_text`: `self.content.push_str(text)`. -/
def Post.add_text (p : Post) (text : String) : Post :=
  { p with content := p.content ++ text }

/-- `Post::approve`:
`if let Some(s) = self.state.take() { self.state = Some(s.approve()) }`.
`take` leaves `none` in the slot; the `Some` arm then stores the
transition result. -/
def Post.approve (p : Post) : Post :=
  let taken := p.state
  let p1 : Post := { p with state := none }
  match taken with
  | some s => { p1 with state := some s.approve }
  | none => p1

/-- `Post::request_review`, same `take`-and-restore shape as `approve`. -/
def Post.request_review (p : Post) : Post :=
  let taken := p.state
  let p1 : Post := { p with state := none }
  match taken with
  | some s => { p1 with state := some s.request_review }
  | none => p1

/-- One public mutating call on a `Post`. -/
inductive Op where
  | add_text (text : String) : Op
  | request_review : Op
  | approve : Op
deriving DecidableEq, Repr

/-- Apply one public call. -/
def Post.apply : Post → Op → Post
  | p, .add_text t => p.add_text t
  | p, .request_review => p.request_review
  | p, .approve => p.approve

/-- Run a sequence of public calls left to right. -/
def Post.run (p : Post) : List Op → Post
  | [] => p
  | op :: ops => (p.apply op).run ops

/-- Concatenation of all `add_text` arguments of a call sequence,
in call order. -/
def concatTexts : List Op → String
  | [] => ""
  | Op.add_text t :: ops => t ++ concatTexts ops
  | Op.request_review :: ops => concatTexts ops
  | Op.approve :: ops => concatTexts ops

theorem string_append_assoc (a b c : String) :
    a ++ b ++ c = a ++ (b ++ c) := by
  rcases a with ⟨a⟩; rcases b with ⟨b⟩; rcases c with ⟨c⟩
  show String.mk (a ++ b ++ c) = String.mk (a ++ (b ++ c))
  rw [List.append_assoc]

theorem apply_state_draft (p : Post) (op : Op)
    (h : p.state = some StateV.Draft) :
    (p.apply op).state = some StateV.Draft := by
  cases op <;>
    simp [Post.apply, Post.add_text, Post.approve, Post.request_review, h,
      StateV.approve, StateV.request_review]

theorem run_state_draft (ops : List Op) (p : Post)
    (h : p.state = some StateV.Draft) :
    (p.run ops).state = some StateV.Draft := by
  induction ops generalizing p with
  | nil => simpa [Post.run] using h
  | cons op ops ih =>
      simp only [Post.run]
      exact ih _ (apply_state_draft p op h)

theorem run_content_concat (ops : List Op) (p : Post) :
    (p.run ops).content = p.content ++ concatTexts ops := by
  induction ops generalizing p with
  | nil => simp [Post.run, concatTexts]
  | cons op ops ih =>
      cases op with
      | add_text t =>
          simp only [Post.run, Post.apply, concatTexts, ih, Post.add_text]
          rw [string_append_assoc]
      | request_review =>
          simp only [Post.run, Post.apply, concatTexts, ih]
          cases h : p.state <;>
            simp [Post.request_review, h]
      | approve =>
          simp only [Post.run, Post.apply, concatTexts, ih]
          cases h : p.state <;>
            simp [Post.approve, h]

theorem string_empty_append (s : String) : "" ++ s = s := by
  rcases s with ⟨s⟩
  show String.mk ([] ++ s) = String.mk s
  rw [List.nil_append]

/-- C1: the spec says `content()` returns the full buffer only when the
current state is `Published` and an empty string otherwise; the code's
`Post::content` is `&self.content`, returning the buffer unconditionally.
Evaluated at `new(); add_text("I ate a salad for lunch today")`: the state
is still `Draft`, yet `content()` already returns the whole buffer. -/
theorem c1_content_ignores_state :
    (Post.new.add_text "I ate a salad for lunch today").content
        = "I ate a salad for lunch today"
    ∧ (Post.new.add_text "I ate a salad for lunch today").state
        = some StateV.Draft :=
  ⟨rfl, rfl⟩

/-- C2: the spec says `request_review()` on a `Draft` post moves it to
`PendingReview`; in the code `<Draft as State>::request_review` returns
`self`, so the state stays `Draft`.  Evaluated both at the state level and
on a fresh post. -/
theorem c2_draft_request_review_stays_draft :
    StateV.Draft.request_review = StateV.Draft
    ∧ (Post.new.request_review).state = some StateV.Draft :=
  ⟨rfl, rfl⟩

/-- C3: the spec says `content()` is non-empty only once the item has
reached `Published`; in the code `content()` is non-empty after a single
`add_text("a")` while the state is still `Draft`, and in fact no operation
sequence from `new()` ever leaves `Draft` (so `Published` is unreachable,
yet content can be non-empty). -/
theorem c3_nonempty_content_without_published :
    (Post.new.add_text "a").content = "a"
    ∧ (Post.new.add_text "a").state = some StateV.Draft
    ∧ ∀ ops : List Op, ((Post.new).run ops).state = some StateV.Draft := by
  refine ⟨rfl, rfl, fun ops => run_state_draft ops Post.new rfl⟩

/-- C4: the spec's concrete scenario expects `content() == ""` both before
and after `request_review()`; evaluating the code on that scenario,
`content()` is already the full text right after `add_text`, and stays so
after `request_review()` and after `approve()`. -/
theorem c4_scenario_content_always_visible :
    (Post.new.add_text "I ate a salad for lunch today").request_review.content
        = "I ate a salad for lunch today"
    ∧ (Post.new.add_text "I ate a salad for lunch today").request_review.approve.content
        = "I ate a salad for lunch today"
    ∧ (Post.new.add_text "I ate a salad for lunch today").request_review.approve.state
        = some StateV.Draft :=
  ⟨rfl, rfl, rfl⟩

/-- C5: for every sequence of `add_text` calls interleaved with
`request_review` and `approve` transitions, the final `content()` result,
when non-empty, equals the concatenation of all `add_text` arguments in
call order. -/
theorem c5_content_concat_when_nonempty (ops : List Op)
    (h : ((Post.new).run ops).content ≠ "") :
    ((Post.new).run ops).content = concatTexts ops := by
  rw [run_content_concat ops Post.new]
  exact string_empty_append _

theorem c5_witness :
    ((Post.new).run [Op.add_text "a"]).content ≠ ""
    ∧ ((Post.new).run [Op.add_text "a"]).content
        = concatTexts [Op.add_text "a"] :=
  ⟨by decide, c5_content_concat_when_nonempty [Op.add_text "a"] (by decide)⟩

/-- C6: calling `approve()` on a freshly constructed post is a no-op: the
state remains `Draft`, and `content()` is the empty string both before and
after the call. -/
theorem c6_approve_on_fresh_is_noop :
    (Post.new.approve).state = some StateV.Draft
    ∧ Post.new.content = ""
    ∧ (Post.new.approve).content = "" :=
  ⟨rfl, rfl, rfl⟩

/-- C7: `Published` is terminal: from any post whose current state is
`Published`, any further sequence of `approve()` / `request_review()`
calls leaves both the state and the `content()` result unchanged. -/
theorem c7_published_is_terminal :
    ∀ (ops : List Op) (p : Post), p.state = some StateV.Published →
      (∀ op ∈ ops, op = Op.request_review ∨ op = Op.approve) →
      (p.run ops).state = p.state ∧ (p.run ops).content = p.content := by
  intro ops
  induction ops with
  | nil => exact fun p _ _ => ⟨rfl, rfl⟩
  | cons op ops ih =>
      intro p hs hops
      have hrest : ∀ o ∈ ops, o = Op.request_review ∨ o = Op.approve :=
        fun o ho => hops o (List.mem_cons_of_mem op ho)
      rcases hops op (List.mem_cons_self op ops) with h | h <;> subst h
      · have h1 : (p.apply Op.request_review).state = some StateV.Published := by
          simp [Post.apply, Post.request_review, hs, StateV.request_review]
        have h2 : (p.apply Op.request_review).content = p.content := by
          simp [Post.apply, Post.request_review, hs]
        obtain ⟨ih1, ih2⟩ := ih (p.apply Op.request_review) h1 hrest
        exact ⟨ih1.trans (h1.trans hs.symm), ih2.trans h2⟩
      · have h1 : (p.apply Op.approve).state = some StateV.Published := by
          simp [Post.apply, Post.approve, hs, StateV.approve]
        have h2 : (p.apply Op.approve).content = p.content := by
          simp [Post.apply, Post.approve, hs]
        obtain ⟨ih1, ih2⟩ := ih (p.apply Op.approve) h1 hrest
        exact ⟨ih1.trans (h1.trans hs.symm), ih2.trans h2⟩

theorem c7_witness :
    (({ state := some StateV.Published, content := "x" } : Post).run
        [Op.approve, Op.request_review]).state
      = ({ state := some StateV.Published, content := "x" } : Post).state
    ∧ (({ state := some StateV.Published, content := "x" } : Post).run
        [Op.approve, Op.request_review]).content
      = ({ state := some StateV.Published, content := "x" } : Post).content :=
  c7_published_is_terminal [Op.approve, Op.request_review]
    { state := some StateV.Published, content := "x" } rfl (by decide)

/-- C8: every public operation is total: on any post holding a state
variant and for any input text, `add_text` keeps the state, while
`request_review` and `approve` always return some valid state variant
(possibly the same one); no operation has an error path. -/
theorem c8_operations_total :
    ∀ (p : Post) (s : StateV) (t : String), p.state = some s →
      (p.add_text t).state = some s
      ∧ (∃ s1, (p.request_review).state = some s1)
      ∧ (∃ s2, (p.approve).state = some s2) := by
  intro p s t h
  refine ⟨by simp [Post.add_text, h], ⟨s.request_review, ?_⟩, ⟨s.approve, ?_⟩⟩
  · simp [Post.request_review, h]
  · simp [Post.approve, h]

theorem c8_witness :
    (Post.new.add_text "x").state = some StateV.Draft
    ∧ (∃ s1, (Post.new.request_review).state = some s1)
    ∧ (∃ s2, (Post.new.approve).state = some s2) :=
  c8_operations_total Post.new StateV.Draft "x" rfl

/-- C9: after `new()` and after every sequence of public operations the
post holds exactly one state variant (the slot is never `none`); and each
transition restores a state before returning: `approve` and
`request_review` leave the slot occupied exactly when it was occupied on
entry. -/
theorem c9_state_never_absent :
    (∀ ops : List Op, ((Post.new).run ops).state.isSome = true)
    ∧ ∀ p : Post, (p.approve).state.isSome = p.state.isSome
        ∧ (p.request_review).state.isSome = p.state.isSome := by
  constructor
  · intro ops
    rw [run_state_draft ops Post.new rfl]
    rfl
  · intro p
    cases h : p.state <;>
      simp [Post.approve, Post.request_review, h]

/-- C10: for every post reachable from `new()` by a finite sequence of
public operations, the `content()` result equals the concatenation of the
`add_text` arguments in call order, hence is determined solely by them and
is independent of the interleaved `request_review()` / `approve()`
transitions. -/
theorem c10_content_depends_only_on_texts :
    ∀ ops : List Op, ((Post.new).run ops).content = concatTexts ops := by
  intro ops
  rw [run_content_concat ops Post.new]
  exact string_empty_append _
